import Mathlib

/-!
Verification of the geometric and cropping primitives of
`laserbeamsize/image_tools.py`.

Images are modelled as total functions `ℤ → ℤ → ℚ` together with explicit
dimensions (rows `v`, columns `h`); only the pixels with `0 ≤ row < v` and
`0 ≤ col < h` are meaningful, exactly as a NumPy array of shape `(v, h)`.
Real-valued quantities that the Python code obtains from transcendental
functions (`np.sin`, `np.cos`, `np.pi`, `np.hypot`, `scipy.ndimage.rotate`)
are abstracted as explicit parameters, since the claims under study do not
depend on their values.
-/

namespace LaserBeamSize

/-- Python's `int()` applied to a rational: truncation toward zero. -/
def intTrunc (q : ℚ) : ℤ := if 0 ≤ q then ⌊q⌋ else ⌈q⌉

/-- A plain (unmasked) image: `v` rows, `h` columns, pixel lookup by
(row, column).  Mirrors a NumPy 2-D array `image[y, x]`. -/
structure Image where
  v : ℕ
  h : ℕ
  pix : ℤ → ℤ → ℚ

/-- The loop body of `line` in `image_tools.py`: Python's
`for c in range(c0, c1 + 1)` with the error accumulator, emitting `(c, r)`
when `steep` and `(r, c)` otherwise.  `n` is the remaining iteration count. -/
def lineAux (steep : Bool) (dr dc step : ℤ) : ℕ → ℤ → ℤ → ℤ → List (ℤ × ℤ)
  | 0, _, _, _ => []
  | Nat.succ n, c, r, err =>
    let pt : ℤ × ℤ := if steep then (c, r) else (r, c)
    let err2 := err - dr
    if err2 < 0 then
      pt :: lineAux steep dr dc step n (c + 1) (r + step) (err2 + dc)
    else
      pt :: lineAux steep dr dc step n (c + 1) r err2

/-- The endpoint normalisation performed by `line`: swap row/column when the
line is steep, then swap the endpoints so the (possibly swapped) column
increases.  Returns `(steep, r0, c0, r1, c1)` after normalisation. -/
def lineNorm (r0 c0 r1 c1 : ℤ) : Bool × ℤ × ℤ × ℤ × ℤ :=
  let steep : Bool := decide (|c1 - c0| < |r1 - r0|)
  let a0 := if steep then c0 else r0
  let b0 := if steep then r0 else c0
  let a1 := if steep then c1 else r1
  let b1 := if steep then r1 else c1
  if b1 < b0 then (steep, a1, b1, a0, b0) else (steep, a0, b0, a1, b1)

/-- `line(r0, c0, r1, c1)` from `image_tools.py` (Bresenham), returning the
list of `(row, col)` pixel coordinates.  Python's parallel arrays `rr, cc`
are represented as a single list of pairs. -/
def line (r0 c0 r1 c1 : ℤ) : List (ℤ × ℤ) :=
  match lineNorm r0 c0 r1 c1 with
  | (steep, r0n, c0n, r1n, c1n) =>
    let dr := |r1n - r0n|
    let dc := c1n - c0n
    let step : ℤ := if r0n < r1n then 1 else -1
    lineAux steep dr dc step (dc + 1).toNat c0n r0n (dc / 2)

theorem lineAux_length (steep : Bool) (dr dc step : ℤ) :
    ∀ (n : ℕ) (c r err : ℤ), (lineAux steep dr dc step n c r err).length = n := by
  intro n
  induction n with
  | zero => intro c r err; rfl
  | succ n ih =>
    intro c r err
    simp only [lineAux]
    split
    · simp [ih]
    · simp [ih]

/-- The `c`-projection (first coordinate when steep, second otherwise) of
every emitted point lies in `[c, c + n)`. -/
theorem lineAux_proj_mem (steep : Bool) (dr dc step : ℤ) :
    ∀ (n : ℕ) (c r err : ℤ) (p : ℤ × ℤ), p ∈ lineAux steep dr dc step n c r err →
      c ≤ (if steep then p.1 else p.2) ∧ (if steep then p.1 else p.2) < c + n := by
  intro n
  induction n with
  | zero => intro c r err p hp; simp [lineAux] at hp
  | succ n ih =>
    intro c r err p hp
    simp only [lineAux] at hp
    split at hp <;>
    · rcases List.mem_cons.mp hp with hp' | hp'
      · subst hp'
        cases steep <;> simp
      · have := ih (c + 1) _ _ p hp'
        omega

theorem lineAux_nodup (steep : Bool) (dr dc step : ℤ) :
    ∀ (n : ℕ) (c r err : ℤ), (lineAux steep dr dc step n c r err).Nodup := by
  intro n
  induction n with
  | zero => intro c r err; simp [lineAux]
  | succ n ih =>
    intro c r err
    simp only [lineAux]
    have hhead : ∀ (r' e' : ℤ) (pt : ℤ × ℤ),
        (if steep then pt.1 else pt.2) = c →
        pt ∉ lineAux steep dr dc step n (c + 1) r' e' := by
      intro r' e' pt hproj hmem
      have := lineAux_proj_mem steep dr dc step n (c + 1) r' e' pt hmem
      omega
    split
    · refine List.nodup_cons.mpr ⟨hhead _ _ _ ?_, ih (c + 1) _ _⟩
      cases steep <;> simp
    · refine List.nodup_cons.mpr ⟨hhead _ _ _ ?_, ih (c + 1) _ _⟩
      cases steep <;> simp

/-- After normalisation the column gap equals the larger of the two
coordinate extents. -/
theorem lineNorm_c_gap (r0 c0 r1 c1 : ℤ) :
    (lineNorm r0 c0 r1 c1).2.2.2.2 - (lineNorm r0 c0 r1 c1).2.2.1
      = (max (r1 - r0).natAbs (c1 - c0).natAbs : ℤ) := by
  have e1 : |c1 - c0| = ((c1 - c0).natAbs : ℤ) := Int.abs_eq_natAbs _
  have e2 : |r1 - r0| = ((r1 - r0).natAbs : ℤ) := Int.abs_eq_natAbs _
  simp only [lineNorm, e1, e2, decide_eq_true_eq]
  split_ifs <;> dsimp only <;> omega

/-- Swapping the endpoints leaves the normalised parameters unchanged. -/
theorem lineNorm_swap (r0 c0 r1 c1 : ℤ) :
    lineNorm r0 c0 r1 c1 = lineNorm r1 c1 r0 c0 := by
  have e1 : |c1 - c0| = ((c1 - c0).natAbs : ℤ) := Int.abs_eq_natAbs _
  have e2 : |r1 - r0| = ((r1 - r0).natAbs : ℤ) := Int.abs_eq_natAbs _
  have e3 : |c0 - c1| = ((c1 - c0).natAbs : ℤ) := by rw [abs_sub_comm]; exact e1
  have e4 : |r0 - r1| = ((r1 - r0).natAbs : ℤ) := by rw [abs_sub_comm]; exact e2
  simp only [lineNorm, e1, e2, e3, e4, decide_eq_true_eq]
  split_ifs <;>
    first
      | rfl
      | (simp only [Prod.mk.injEq, eq_self_iff_true, true_and]; omega)

theorem line_swap (r0 c0 r1 c1 : ℤ) : line r0 c0 r1 c1 = line r1 c1 r0 c0 := by
  unfold line
  rw [lineNorm_swap]

/-- C3: for every pair of integer endpoints, `line` returns exactly
`max (|r1 - r0|) (|c1 - c0|) + 1` coordinate pairs and no `(row, col)` pair
appears twice in the returned sequence. -/
theorem line_length_and_nodup (r0 c0 r1 c1 : ℤ) :
    (line r0 c0 r1 c1).length = max (r1 - r0).natAbs (c1 - c0).natAbs + 1 ∧
    (line r0 c0 r1 c1).Nodup := by
  have hgap := lineNorm_c_gap r0 c0 r1 c1
  rcases h : lineNorm r0 c0 r1 c1 with ⟨steep, r0n, c0n, r1n, c1n⟩
  rw [h] at hgap
  simp only at hgap
  constructor
  · simp only [line, h, lineAux_length]
    omega
  · simp only [line, h]
    exact lineAux_nodup _ _ _ _ _ _ _ _

/-- C3: for every pair of integer endpoints `(r0, c0)` and `(r1, c1)`, the
discrete line function `line` returns exactly
`max |r1 - r0| |c1 - c0| + 1` coordinate pairs, and no `(row, col)` pair
appears twice in the returned sequence. -/
theorem claim_C3_line_length_nodup (r0 c0 r1 c1 : ℤ) :
    (line r0 c0 r1 c1).length = max (r1 - r0).natAbs (c1 - c0).natAbs + 1 ∧
    (line r0 c0 r1 c1).Nodup :=
  line_length_and_nodup r0 c0 r1 c1

/-- C4: for every pair of integer endpoints, the set of `(row, col)` pairs
returned by `line` for `(r0, c0)` to `(r1, c1)` equals the set returned for
`(r1, c1)` to `(r0, c0)` (reversal symmetry as a set of points).  In fact the
implementation returns the identical list in both directions, because it
normalises the marching direction internally. -/
theorem claim_C4_line_reversal_symmetric (r0 c0 r1 c1 : ℤ) (p : ℤ × ℤ) :
    p ∈ line r0 c0 r1 c1 ↔ p ∈ line r1 c1 r0 c0 := by
  rw [line_swap]

/-- An image that may carry a mask (NumPy masked array): `isMasked` records
whether the array is a masked array at all; `mask r c = true` means the pixel
at row `r`, column `c` is invalid. -/
structure MaskedImage where
  v : ℕ
  h : ℕ
  pix : ℤ → ℤ → ℚ
  isMasked : Bool
  mask : ℤ → ℤ → Bool

/-- One sample point of `values_along_line` before the value lookup:
row, column, and distance-from-midpoint entry. -/
structure LinePt where
  r : ℤ
  c : ℤ
  d : ℚ

/-- The four parallel arrays returned by `values_along_line`. -/
structure LineArrays where
  x : List ℚ
  y : List ℚ
  z : List ℚ
  s : List ℚ

/-- The in-bounds test `(rr_full >= 0) & (rr_full < height) & (cc_full >= 0)
& (cc_full < width)` of `values_along_line`, applied to one sample point. -/
def lineBounds (img : MaskedImage) (p : LinePt) : Bool :=
  decide (0 ≤ p.r ∧ p.r < (img.v : ℤ) ∧ 0 ≤ p.c ∧ p.c < (img.h : ℤ))

/-- The full discrete line of `values_along_line`, each point paired with its
distance-from-midpoint entry `d_full[i] = (i / (n - 1) - 0.5) * total`.
`dist` abstracts the real number `np.hypot(x1 - x0, y1 - y0)`.
`np.linspace(0, 1, n)` gives `i / (n - 1)`, which for `n = 1` is `0` in both
NumPy and in `ℚ` (division by zero). -/
def vazFull (x0 y0 x1 y1 : ℤ) (dist : ℚ) : List LinePt :=
  let pts := line y0 x0 y1 x1
  let n := pts.length
  (pts.zip (List.range n)).map fun pc =>
    ⟨pc.1.1, pc.1.2,
      if 0 < dist then ((pc.2 : ℚ) / ((n : ℚ) - 1) - 1 / 2) * dist else 0⟩

/-- The final filtered sample list of `values_along_line`: keep in-bounds
points, look up their values, and — when the image is a masked array with at
least one masked selected value (`np.ma.is_masked(z)`) — drop masked points. -/
def vazFinal (img : MaskedImage) (x0 y0 x1 y1 : ℤ) (dist : ℚ) :
    List (LinePt × ℚ) :=
  let valid := (vazFull x0 y0 x1 y1 dist).filter (lineBounds img)
  let withZ : List (LinePt × ℚ) := valid.map fun p => (p, img.pix p.r p.c)
  let anyMasked := img.isMasked && withZ.any fun q => img.mask q.1.r q.1.c
  if anyMasked then withZ.filter fun q => ! img.mask q.1.r q.1.c else withZ

/-- `values_along_line(image, x0, y0, x1, y1)` from `image_tools.py`.

The endpoints are taken as the integers obtained from Python's
`int(round(...))`; `dist` abstracts the real number
`np.hypot(x1 - x0, y1 - y0)` (the true sub-pixel length, used only to scale
the distance axis). -/
def values_along_line (img : MaskedImage) (x0 y0 x1 y1 : ℤ) (dist : ℚ) :
    LineArrays :=
  { x := (vazFinal img x0 y0 x1 y1 dist).map fun q => (q.1.c : ℚ)
    y := (vazFinal img x0 y0 x1 y1 dist).map fun q => (q.1.r : ℚ)
    z := (vazFinal img x0 y0 x1 y1 dist).map fun q => q.2
    s := (vazFinal img x0 y0 x1 y1 dist).map fun q => q.1.d }

/-- Every element of the final sample list passed the in-bounds filter. -/
theorem vazFinal_bounds (img : MaskedImage) (x0 y0 x1 y1 : ℤ) (dist : ℚ)
    (q : LinePt × ℚ) (hq : q ∈ vazFinal img x0 y0 x1 y1 dist) :
    lineBounds img q.1 = true := by
  simp only [vazFinal] at hq
  have hmem : q ∈ ((vazFull x0 y0 x1 y1 dist).filter (lineBounds img)).map
      fun p => (p, img.pix p.r p.c) := by
    split at hq
    · exact (List.mem_filter.mp hq).1
    · exact hq
  obtain ⟨p, hp, rfl⟩ := List.mem_map.mp hmem
  exact (List.mem_filter.mp hp).2

/-- Every point of the full sample list is a point of the discrete line. -/
theorem vazFull_mem_line (x0 y0 x1 y1 : ℤ) (dist : ℚ) (p : LinePt)
    (hp : p ∈ vazFull x0 y0 x1 y1 dist) : (p.r, p.c) ∈ line y0 x0 y1 x1 := by
  simp only [vazFull] at hp
  obtain ⟨pc, hpc, rfl⟩ := List.mem_map.mp hp
  simpa using (List.of_mem_zip hpc).1

/-- If no point of the discrete line is in bounds, the final sample list is
empty. -/
theorem vazFinal_nil (img : MaskedImage) (x0 y0 x1 y1 : ℤ) (dist : ℚ)
    (hout : ∀ q ∈ line y0 x0 y1 x1,
      ¬(0 ≤ q.1 ∧ q.1 < (img.v : ℤ) ∧ 0 ≤ q.2 ∧ q.2 < (img.h : ℤ))) :
    vazFinal img x0 y0 x1 y1 dist = [] := by
  have hfil : (vazFull x0 y0 x1 y1 dist).filter (lineBounds img) = [] := by
    refine List.filter_eq_nil_iff.mpr ?_
    intro p hp
    have := hout _ (vazFull_mem_line x0 y0 x1 y1 dist p hp)
    simpa [lineBounds] using this
  simp [vazFinal, hfil]

/-- C9: the four arrays `(x, y, z, s)` returned by `values_along_line`
always have equal length, for every image (masked or not) and every choice
of endpoints. -/
theorem claim_C9_values_along_line_equal_lengths (img : MaskedImage)
    (x0 y0 x1 y1 : ℤ) (dist : ℚ) :
    (values_along_line img x0 y0 x1 y1 dist).x.length
        = (values_along_line img x0 y0 x1 y1 dist).y.length ∧
    (values_along_line img x0 y0 x1 y1 dist).y.length
        = (values_along_line img x0 y0 x1 y1 dist).z.length ∧
    (values_along_line img x0 y0 x1 y1 dist).z.length
        = (values_along_line img x0 y0 x1 y1 dist).s.length := by
  simp [values_along_line]

/-- C5: `values_along_line` never indexes the image out of bounds: every
`(x, y)` coordinate pair it returns lies within the image bounds, and when
the discrete line is entirely outside the image it returns empty arrays. -/
theorem claim_C5_values_along_line_in_bounds (img : MaskedImage)
    (x0 y0 x1 y1 : ℤ) (dist : ℚ) :
    (∀ p ∈ (values_along_line img x0 y0 x1 y1 dist).x.zip
            (values_along_line img x0 y0 x1 y1 dist).y,
        0 ≤ p.1 ∧ p.1 < (img.h : ℚ) ∧ 0 ≤ p.2 ∧ p.2 < (img.v : ℚ)) ∧
    ((∀ q ∈ line y0 x0 y1 x1,
        ¬(0 ≤ q.1 ∧ q.1 < (img.v : ℤ) ∧ 0 ≤ q.2 ∧ q.2 < (img.h : ℤ))) →
      (values_along_line img x0 y0 x1 y1 dist).x = [] ∧
      (values_along_line img x0 y0 x1 y1 dist).y = [] ∧
      (values_along_line img x0 y0 x1 y1 dist).z = [] ∧
      (values_along_line img x0 y0 x1 y1 dist).s = []) := by
  constructor
  · intro p hp
    simp only [values_along_line, List.zip_map'] at hp
    obtain ⟨q, hq, rfl⟩ := List.mem_map.mp hp
    have hbound := vazFinal_bounds img x0 y0 x1 y1 dist q hq
    simp only [lineBounds, decide_eq_true_eq] at hbound
    refine ⟨?_, ?_, ?_, ?_⟩ <;> dsimp only
    · exact_mod_cast hbound.2.2.1
    · exact_mod_cast hbound.2.2.2
    · exact_mod_cast hbound.1
    · exact_mod_cast hbound.2.1
  · intro hout
    have hnil := vazFinal_nil img x0 y0 x1 y1 dist hout
    simp [values_along_line, hnil]

/-- The result of a crop: a (possibly masked) image.  `masked = true` when
the Python code returned a `numpy.ma.masked_array` (padding occurred);
`mask r c = true` marks a padded, invalid pixel. -/
structure Cropped where
  v : ℕ
  h : ℕ
  pix : ℤ → ℤ → ℚ
  masked : Bool
  mask : ℤ → ℤ → Bool

/-- `crop_image_to_rect(image, xc_px, yc_px, xmin, xmax, ymin, ymax)` from
`image_tools.py`.  The bounds arrive as arbitrary rationals (Python floats)
and are truncated toward zero by `int(...)`, modelled by `intTrunc`.  The
sentinel return `(None, None, None)` is modelled by `none`. -/
def crop_image_to_rect (img : Image) (xc yc xmin xmax ymin ymax : ℚ) :
    Option (Cropped × ℚ × ℚ) :=
  let v : ℤ := img.v
  let h : ℤ := img.h
  let xmin_req := intTrunc xmin
  let xmax_req := intTrunc xmax
  let ymin_req := intTrunc ymin
  let ymax_req := intTrunc ymax
  let crop_height := ymax_req - ymin_req
  let crop_width := xmax_req - xmin_req
  if crop_height < 3 ∨ crop_width < 3 then none
  else
    let xmin_valid := max 0 xmin_req
    let xmax_valid := min h xmax_req
    let ymin_valid := max 0 ymin_req
    let ymax_valid := min v ymax_req
    if xmax_valid ≤ xmin_valid ∨ ymax_valid ≤ ymin_valid then none
    else
      let cropped : Cropped :=
        { v := (ymax_valid - ymin_valid).toNat
          h := (xmax_valid - xmin_valid).toNat
          pix := fun r c => img.pix (ymin_valid + r) (xmin_valid + c)
          masked := false
          mask := fun _ _ => false }
      let result : Cropped :=
        if xmin_req < 0 ∨ h < xmax_req ∨ ymin_req < 0 ∨ v < ymax_req then
          let pad_ymin := max 0 (-ymin_req)
          let pad_xmin := max 0 (-xmin_req)
          let pad_ymax := pad_ymin + (ymax_valid - ymin_valid)
          let pad_xmax := pad_xmin + (xmax_valid - xmin_valid)
          { v := crop_height.toNat
            h := crop_width.toNat
            pix := fun r c =>
              if pad_ymin ≤ r ∧ r < pad_ymax ∧ pad_xmin ≤ c ∧ c < pad_xmax then
                cropped.pix (r - pad_ymin) (c - pad_xmin)
              else 0
            masked := true
            mask := fun r c =>
              decide
                (¬(pad_ymin ≤ r ∧ r < pad_ymax ∧ pad_xmin ≤ c ∧ c < pad_xmax)) }
        else cropped
      some (result, xc - xmin_req, yc - ymin_req)

/-- C1: `crop_image_to_rect` returns the sentinel `none` if and only if the
requested rectangle, after truncating its bounds to integers, has height
less than 3 or width less than 3 pixels, or has zero overlap with the image
(no integer pixel lies both in the truncated rectangle and in the image);
for every request at least 3×3 with some overlap it returns a result. -/
theorem claim_C1_crop_sentinel (img : Image) (xc yc xmin xmax ymin ymax : ℚ) :
    crop_image_to_rect img xc yc xmin xmax ymin ymax = none ↔
      (intTrunc ymax - intTrunc ymin < 3 ∨ intTrunc xmax - intTrunc xmin < 3 ∨
        ¬∃ p : ℤ × ℤ,
          (intTrunc xmin ≤ p.1 ∧ p.1 < intTrunc xmax ∧
           intTrunc ymin ≤ p.2 ∧ p.2 < intTrunc ymax) ∧
          (0 ≤ p.1 ∧ p.1 < (img.h : ℤ) ∧ 0 ≤ p.2 ∧ p.2 < (img.v : ℤ))) := by
  simp only [crop_image_to_rect]
  split_ifs with h1 h2
  · constructor
    · intro _
      rcases h1 with h1 | h1
      · exact Or.inl h1
      · exact Or.inr (Or.inl h1)
    · intro _; rfl
  · constructor
    · intro _
      refine Or.inr (Or.inr ?_)
      rintro ⟨⟨p1, p2⟩, ⟨hx1, hx2, hy1, hy2⟩, hb1, hb2, hb3, hb4⟩
      omega
    · intro _; rfl
  · constructor
    · intro hcontra
      exact absurd hcontra (by simp)
    · intro hrhs
      rcases hrhs with h | h | h
      · omega
      · omega
      · exact absurd ⟨⟨max 0 (intTrunc xmin), max 0 (intTrunc ymin)⟩,
          ⟨by omega, by omega, by omega, by omega⟩,
          by omega, by omega, by omega, by omega⟩ h

/-- C10: when the requested rectangle (after integer truncation, at least
3×3) lies fully inside the image bounds, `crop_image_to_rect` returns
exactly the sub-image `image[ymin:ymax, xmin:xmax]` with no mask attached,
and the centre translated by `(-xmin, -ymin)`. -/
theorem claim_C10_crop_fully_inside (img : Image)
    (xc yc xmin xmax ymin ymax : ℚ)
    (h3h : 3 ≤ intTrunc ymax - intTrunc ymin)
    (h3w : 3 ≤ intTrunc xmax - intTrunc xmin)
    (hy0 : 0 ≤ intTrunc ymin) (hyv : intTrunc ymax ≤ (img.v : ℤ))
    (hx0 : 0 ≤ intTrunc xmin) (hxh : intTrunc xmax ≤ (img.h : ℤ)) :
    crop_image_to_rect img xc yc xmin xmax ymin ymax =
      some (⟨(intTrunc ymax - intTrunc ymin).toNat,
             (intTrunc xmax - intTrunc xmin).toNat,
             fun r c => img.pix (intTrunc ymin + r) (intTrunc xmin + c),
             false, fun _ _ => false⟩,
            xc - (intTrunc xmin : ℚ), yc - (intTrunc ymin : ℚ)) := by
  simp only [crop_image_to_rect]
  have e1 : max 0 (intTrunc ymin) = intTrunc ymin := by omega
  have e2 : min (img.v : ℤ) (intTrunc ymax) = intTrunc ymax := by omega
  have e3 : max 0 (intTrunc xmin) = intTrunc xmin := by omega
  have e4 : min (img.h : ℤ) (intTrunc xmax) = intTrunc xmax := by omega
  rw [if_neg (by omega), if_neg (by rw [e1, e2, e3, e4]; omega),
    if_neg (by omega), e1, e2, e3, e4]

/-- C2: for every request rectangle (after integer truncation) at least 3×3
that overlaps the image but extends beyond its bounds, `crop_image_to_rect`
returns a masked array of exactly the requested height and width in which
every pixel outside the source image is zero and marked invalid, every
pixel inside the source image equals the source pixel at the corresponding
location, and the returned centre coordinates are `(xc - xmin, yc - ymin)`
in the cropped frame. -/
theorem claim_C2_crop_padded (img : Image) (xc yc xmin xmax ymin ymax : ℚ)
    (h3h : 3 ≤ intTrunc ymax - intTrunc ymin)
    (h3w : 3 ≤ intTrunc xmax - intTrunc xmin)
    (hovx : max 0 (intTrunc xmin) < min (img.h : ℤ) (intTrunc xmax))
    (hovy : max 0 (intTrunc ymin) < min (img.v : ℤ) (intTrunc ymax))
    (hext : intTrunc xmin < 0 ∨ (img.h : ℤ) < intTrunc xmax ∨
            intTrunc ymin < 0 ∨ (img.v : ℤ) < intTrunc ymax) :
    ∃ res : Cropped,
      crop_image_to_rect img xc yc xmin xmax ymin ymax =
        some (res, xc - (intTrunc xmin : ℚ), yc - (intTrunc ymin : ℚ)) ∧
      (res.v : ℤ) = intTrunc ymax - intTrunc ymin ∧
      (res.h : ℤ) = intTrunc xmax - intTrunc xmin ∧
      res.masked = true ∧
      ∀ r c : ℤ, 0 ≤ r → r < (res.v : ℤ) → 0 ≤ c → c < (res.h : ℤ) →
        ((0 ≤ intTrunc ymin + r ∧ intTrunc ymin + r < (img.v : ℤ) ∧
          0 ≤ intTrunc xmin + c ∧ intTrunc xmin + c < (img.h : ℤ)) →
            res.pix r c = img.pix (intTrunc ymin + r) (intTrunc xmin + c) ∧
            res.mask r c = false) ∧
        (¬(0 ≤ intTrunc ymin + r ∧ intTrunc ymin + r < (img.v : ℤ) ∧
           0 ≤ intTrunc xmin + c ∧ intTrunc xmin + c < (img.h : ℤ)) →
            res.pix r c = 0 ∧ res.mask r c = true) := by
  simp only [crop_image_to_rect]
  rw [if_neg (by omega), if_neg (by omega), if_pos hext]
  refine ⟨_, rfl, by dsimp only; omega, by dsimp only; omega, rfl, ?_⟩
  intro r c hr0 hrv hc0 hch
  dsimp only at hrv hch ⊢
  constructor
  · intro hin
    have hwin : max 0 (-intTrunc ymin) ≤ r ∧
        r < max 0 (-intTrunc ymin) +
          (min (img.v : ℤ) (intTrunc ymax) - max 0 (intTrunc ymin)) ∧
        max 0 (-intTrunc xmin) ≤ c ∧
        c < max 0 (-intTrunc xmin) +
          (min (img.h : ℤ) (intTrunc xmax) - max 0 (intTrunc xmin)) := by
      omega
    rw [if_pos hwin]
    constructor
    · have ey : max 0 (intTrunc ymin) + (r - max 0 (-intTrunc ymin))
          = intTrunc ymin + r := by omega
      have ex : max 0 (intTrunc xmin) + (c - max 0 (-intTrunc xmin))
          = intTrunc xmin + c := by omega
      rw [ey, ex]
    · simp only [decide_eq_false_iff_not, not_not]
      exact hwin
  · intro hout
    have hwin : ¬(max 0 (-intTrunc ymin) ≤ r ∧
        r < max 0 (-intTrunc ymin) +
          (min (img.v : ℤ) (intTrunc ymax) - max 0 (intTrunc ymin)) ∧
        max 0 (-intTrunc xmin) ≤ c ∧
        c < max 0 (-intTrunc xmin) +
          (min (img.h : ℤ) (intTrunc xmax) - max 0 (intTrunc xmin))) := by
      omega
    rw [if_neg hwin]
    exact ⟨rfl, by simp only [decide_eq_true_eq]; exact hwin⟩

/-- Concrete 4×5 image used by the crop witnesses. -/
def imgW : Image := ⟨4, 5, fun r c => ((r * 10 + c : ℤ) : ℚ)⟩

/-- Witness for C10: the 3×3 rectangle `[1,4)×[0,3)` lies fully inside the
4×5 image and is returned as a plain sub-image. -/
theorem claim_C10_witness :
    crop_image_to_rect imgW 2 2 1 4 0 3 =
      some (⟨(intTrunc (3 : ℚ) - intTrunc (0 : ℚ)).toNat,
             (intTrunc (4 : ℚ) - intTrunc (1 : ℚ)).toNat,
             fun r c => imgW.pix (intTrunc (0 : ℚ) + r) (intTrunc (1 : ℚ) + c),
             false, fun _ _ => false⟩,
            2 - (intTrunc (1 : ℚ) : ℚ), 2 - (intTrunc (0 : ℚ) : ℚ)) :=
  claim_C10_crop_fully_inside imgW 2 2 1 4 0 3 (by norm_num [intTrunc])
    (by norm_num [intTrunc]) (by norm_num [intTrunc])
    (by norm_num [intTrunc, imgW]) (by norm_num [intTrunc])
    (by norm_num [intTrunc, imgW])

/-- Witness for C2: the rectangle `[1,6)×[0,3)` overlaps the 4×5 image but
extends past its right edge, so the result is padded and masked. -/
theorem claim_C2_witness :
    ∃ res : Cropped,
      crop_image_to_rect imgW 2 2 1 6 0 3 =
        some (res, 2 - (intTrunc (1 : ℚ) : ℚ), 2 - (intTrunc (0 : ℚ) : ℚ)) ∧
      (res.v : ℤ) = intTrunc (3 : ℚ) - intTrunc (0 : ℚ) ∧
      (res.h : ℤ) = intTrunc (6 : ℚ) - intTrunc (1 : ℚ) ∧
      res.masked = true ∧
      ∀ r c : ℤ, 0 ≤ r → r < (res.v : ℤ) → 0 ≤ c → c < (res.h : ℤ) →
        ((0 ≤ intTrunc (0 : ℚ) + r ∧ intTrunc (0 : ℚ) + r < (imgW.v : ℤ) ∧
          0 ≤ intTrunc (1 : ℚ) + c ∧ intTrunc (1 : ℚ) + c < (imgW.h : ℤ)) →
            res.pix r c = imgW.pix (intTrunc (0 : ℚ) + r) (intTrunc (1 : ℚ) + c) ∧
            res.mask r c = false) ∧
        (¬(0 ≤ intTrunc (0 : ℚ) + r ∧ intTrunc (0 : ℚ) + r < (imgW.v : ℤ) ∧
           0 ≤ intTrunc (1 : ℚ) + c ∧ intTrunc (1 : ℚ) + c < (imgW.h : ℤ)) →
            res.pix r c = 0 ∧ res.mask r c = true) :=
  claim_C2_crop_padded imgW 2 2 1 6 0 3 (by norm_num [intTrunc])
    (by norm_num [intTrunc]) (by norm_num [intTrunc, imgW])
    (by norm_num [intTrunc, imgW]) (by norm_num [intTrunc, imgW])

/-- `rotate_points(x, y, x0, y0, phi)` from `image_tools.py`, rotating a
point about `(x0, y0)` by angle `-phi`.  `sinphi` and `cosphi` abstract the
real numbers `np.sin(phi)` and `np.cos(phi)`, so the code's
`s = np.sin(-phi)` is `-sinphi` and `c = np.cos(-phi)` is `cosphi`. -/
def rotate_points (x y x0 y0 sinphi cosphi : ℚ) : ℚ × ℚ :=
  let xp := x - x0
  let yp := y - y0
  let s := -sinphi
  let c := cosphi
  (xp * c - yp * s + x0, xp * s + yp * c + y0)

/-- `rotated_rect_arrays(xc_px, yc_px, d_major, d_minor, phi)`: the five
corner points (closed polyline) of the rotated rectangle, as parallel x/y
lists. -/
def rotated_rect_arrays (xc yc d_major d_minor sinphi cosphi : ℚ) :
    List ℚ × List ℚ :=
  let rx := d_major / 2
  let ry := d_minor / 2
  let xs := [-rx + xc, -rx + xc, rx + xc, rx + xc, -rx + xc]
  let ys := [-ry + yc, ry + yc, ry + yc, -ry + yc, -ry + yc]
  let pts := (xs.zip ys).map fun p => rotate_points p.1 p.2 xc yc sinphi cosphi
  (pts.map Prod.fst, pts.map Prod.snd)

/-- Python's `min` over a list (the argument is always nonempty here). -/
def listMin : List ℚ → ℚ
  | [] => 0
  | q :: qs => qs.foldl min q

/-- Python's `max` over a list (the argument is always nonempty here). -/
def listMax : List ℚ → ℚ
  | [] => 0
  | q :: qs => qs.foldl max q

/-- `crop_image_to_integration_rect` from `image_tools.py`.  `d_minor` is
`Option ℚ`: Python's `None` (fit not converged) is `none`.  When `d_minor`
is `none` the input image is returned unchanged (wrapped as an unmasked
`Cropped`); otherwise the axis-aligned bounding box of the rotated
`mask_diameters * (d_major, d_minor)` rectangle is cropped. -/
def crop_image_to_integration_rect (img : Image) (xc yc d_major : ℚ)
    (d_minor : Option ℚ) (sinphi cosphi : ℚ) (mask_diameters : ℚ) :
    Option (Cropped × ℚ × ℚ) :=
  match d_minor with
  | none => some (⟨img.v, img.h, img.pix, false, fun _ _ => false⟩, xc, yc)
  | some dm =>
    let rect_major := mask_diameters * d_major
    let rect_minor := mask_diameters * dm
    let xy := rotated_rect_arrays xc yc rect_major rect_minor sinphi cosphi
    crop_image_to_rect img xc yc (listMin xy.1) (listMax xy.1)
      (listMin xy.2) (listMax xy.2)

/-- C6: for every image, centre `(xc, yc)`, `d_major`, angle, and
`mask_diameters`, when `d_minor` is undefined (`none`),
`crop_image_to_integration_rect` returns the input image, `xc`, and `yc`
unchanged — no cropping, padding, or masking is performed. -/
theorem claim_C6_integration_rect_none (img : Image) (xc yc d_major : ℚ)
    (sinphi cosphi : ℚ) (mask_diameters : ℚ) :
    crop_image_to_integration_rect img xc yc d_major none sinphi cosphi
        mask_diameters =
      some (⟨img.v, img.h, img.pix, false, fun _ _ => false⟩, xc, yc) := rfl

/-- The six slice offsets computed by `rotate_image` when it re-crops the
scipy-rotated array back to the original shape:
`(rv1, sv1, vlen, rh1, sh1, hlen)` with the same names as in the source. -/
structure CropParams where
  rv1 : ℤ
  sv1 : ℤ
  vlen : ℤ
  rh1 : ℤ
  sh1 : ℤ
  hlen : ℤ

/-- The offset computation of `rotate_image`: locate `(x0, y0)` in the
rotated image via `rotate_points` about the original centre, take the
integer offsets `voff`, `hoff`, and derive the source/destination slice
bounds.  `rotated` is the result of `scipy.ndimage.rotate` (abstracted, its
shape included); `sinphi`, `cosphi` abstract `sin phi` and `cos phi`. -/
def rotate_crop_params (original rotated : Image) (x0 y0 sinphi cosphi : ℚ) :
    CropParams :=
  let cy : ℚ := ((original.v : ℚ) - 1) / 2
  let cx : ℚ := ((original.h : ℚ) - 1) / 2
  let ry : ℚ := ((rotated.v : ℚ) - 1) / 2
  let rx : ℚ := ((rotated.h : ℚ) - 1) / 2
  let p := rotate_points x0 y0 cx cy sinphi cosphi
  let new_x0 := p.1 + (rx - cx)
  let new_y0 := p.2 + (ry - cy)
  let voff := intTrunc (new_y0 - y0)
  let hoff := intTrunc (new_x0 - x0)
  { rv1 := max voff 0
    sv1 := max (-voff) 0
    vlen := min (voff + (original.v : ℤ)) (rotated.v : ℤ) - max voff 0
    rh1 := max hoff 0
    sh1 := max (-hoff) 0
    hlen := min (hoff + (original.h : ℤ)) (rotated.h : ℤ) - max hoff 0 }

/-- `rotate_image(original, x0, y0, phi)` from `image_tools.py`.  When `phi`
is `None` the input is returned unchanged.  Otherwise the scipy-rotated
array (`rotated`, abstracted as a parameter) is copied into a zero array of
the original shape at the offsets of `rotate_crop_params`; NumPy's empty
slices (non-positive lengths) copy nothing. -/
def rotate_image (original : Image) (x0 y0 : ℚ) (phi : Option ℚ)
    (sinphi cosphi : ℚ) (rotated : Image) : Image :=
  match phi with
  | none => original
  | some _ =>
    let q := rotate_crop_params original rotated x0 y0 sinphi cosphi
    { v := original.v
      h := original.h
      pix := fun r c =>
        if q.sv1 ≤ r ∧ r < q.sv1 + q.vlen ∧ q.sh1 ≤ c ∧ c < q.sh1 + q.hlen then
          rotated.pix (q.rv1 + (r - q.sv1)) (q.rh1 + (c - q.sh1))
        else 0 }

/-- C8: for every 2-D image and angle `phi`, `rotate_image` returns an array
of exactly the same shape as the input; every pixel outside the window
covered by the copied-in rotated content is zero; and when `phi` is `None`
the input image is returned unchanged. -/
theorem claim_C8_rotate_image_shape_and_fill (original : Image) (x0 y0 : ℚ)
    (phi : Option ℚ) (sinphi cosphi : ℚ) (rotated : Image) :
    (rotate_image original x0 y0 phi sinphi cosphi rotated).v = original.v ∧
    (rotate_image original x0 y0 phi sinphi cosphi rotated).h = original.h ∧
    (phi = none →
      rotate_image original x0 y0 phi sinphi cosphi rotated = original) ∧
    (∀ p : ℚ, phi = some p →
      ∀ r c : ℤ,
        ¬((rotate_crop_params original rotated x0 y0 sinphi cosphi).sv1 ≤ r ∧
          r < (rotate_crop_params original rotated x0 y0 sinphi cosphi).sv1 +
              (rotate_crop_params original rotated x0 y0 sinphi cosphi).vlen ∧
          (rotate_crop_params original rotated x0 y0 sinphi cosphi).sh1 ≤ c ∧
          c < (rotate_crop_params original rotated x0 y0 sinphi cosphi).sh1 +
              (rotate_crop_params original rotated x0 y0 sinphi cosphi).hlen) →
        (rotate_image original x0 y0 phi sinphi cosphi rotated).pix r c = 0) := by
  refine ⟨?_, ?_, ?_, ?_⟩
  · cases phi <;> rfl
  · cases phi <;> rfl
  · rintro rfl; rfl
  · rintro p rfl r c hout
    simp only [rotate_image]
    rw [if_neg hout]

/-- `create_test_image` from `image_tools.py` — its validation prelude.
The subsequent image construction (a floating-point Gaussian optionally
perturbed by random noise) has no exact rational semantics and is not
reached when validation fails, so a successful call returns `()`.
`piVal` abstracts the real constant `np.pi`. -/
def create_test_image (piVal : ℚ) (h v : ℤ) (xc yc d_major d_minor : ℚ)
    (phi : Option ℚ) (noise max_value : ℚ) : Except String Unit :=
  if max_value < 0 ∨ 2 ^ 16 ≤ max_value then
    Except.error "max_value must be positive and less than 65535"
  else if h ≤ 0 then
    Except.error "number of columns must be positive"
  else if v ≤ 0 then
    Except.error "number of rows must be positive"
  else
    match phi with
    | some p =>
      if 21 / 10 * piVal < |p| then
        Except.error "the angle phi should be in radians!"
      else Except.ok ()
    | none => Except.ok ()

/-- C7: `create_test_image` raises an error (and produces no image) exactly
when the number of rows or columns is not positive, or `phi` is not `None`
and `|phi| > 2.1 * pi`, or `max_value` is out of bounds (negative or at
least `2 ^ 16`). -/
theorem claim_C7_create_test_image_validation (piVal : ℚ) (h v : ℤ)
    (xc yc d_major d_minor : ℚ) (phi : Option ℚ) (noise max_value : ℚ) :
    (∃ e, create_test_image piVal h v xc yc d_major d_minor phi noise max_value
        = Except.error e) ↔
      (h ≤ 0 ∨ v ≤ 0 ∨ (∃ p, phi = some p ∧ 21 / 10 * piVal < |p|) ∨
        max_value < 0 ∨ 2 ^ 16 ≤ max_value) := by
  cases phi with
  | none =>
    simp only [create_test_image]
    split_ifs with h1 h2 h3 <;> simp_all [not_le, not_lt]
  | some p =>
    simp only [create_test_image]
    split_ifs with h1 h2 h3 h4 <;> simp_all [not_le, not_lt]

/-- Witness for C1 at a concrete 1-pixel-wide request (sentinel case). -/
theorem claim_C1_witness :
    crop_image_to_rect imgW 2 2 1 2 0 3 = none ↔
      (intTrunc (3 : ℚ) - intTrunc (0 : ℚ) < 3 ∨
        intTrunc (2 : ℚ) - intTrunc (1 : ℚ) < 3 ∨
        ¬∃ p : ℤ × ℤ,
          (intTrunc (1 : ℚ) ≤ p.1 ∧ p.1 < intTrunc (2 : ℚ) ∧
           intTrunc (0 : ℚ) ≤ p.2 ∧ p.2 < intTrunc (3 : ℚ)) ∧
          (0 ≤ p.1 ∧ p.1 < (imgW.h : ℤ) ∧ 0 ≤ p.2 ∧ p.2 < (imgW.v : ℤ))) :=
  claim_C1_crop_sentinel imgW 2 2 1 2 0 3

/-- Witness for C4 at concrete endpoints. -/
theorem claim_C4_witness :
    ((0 : ℤ), (0 : ℤ)) ∈ line 0 0 1 5 ↔ ((0 : ℤ), (0 : ℤ)) ∈ line 1 5 0 0 :=
  claim_C4_line_reversal_symmetric 0 0 1 5 (0, 0)

/-- Concrete unmasked 4×5 image used by the line-sampling witness. -/
def mimgW : MaskedImage :=
  ⟨4, 5, fun r c => ((r + c : ℤ) : ℚ), false, fun _ _ => false⟩

/-- Witness for C5 at a concrete image and a line leaving the image. -/
theorem claim_C5_witness :
    (∀ p ∈ (values_along_line mimgW 0 0 10 10 5).x.zip
            (values_along_line mimgW 0 0 10 10 5).y,
        0 ≤ p.1 ∧ p.1 < (mimgW.h : ℚ) ∧ 0 ≤ p.2 ∧ p.2 < (mimgW.v : ℚ)) ∧
    ((∀ q ∈ line 0 0 10 10,
        ¬(0 ≤ q.1 ∧ q.1 < (mimgW.v : ℤ) ∧ 0 ≤ q.2 ∧ q.2 < (mimgW.h : ℤ))) →
      (values_along_line mimgW 0 0 10 10 5).x = [] ∧
      (values_along_line mimgW 0 0 10 10 5).y = [] ∧
      (values_along_line mimgW 0 0 10 10 5).z = [] ∧
      (values_along_line mimgW 0 0 10 10 5).s = []) :=
  claim_C5_values_along_line_in_bounds mimgW 0 0 10 10 5

/-- Witness for C7 at concrete arguments with a non-positive column count. -/
theorem claim_C7_witness :
    (∃ e, create_test_image 3 (-1) 5 0 0 10 8 none 0 255
        = Except.error e) ↔
      ((-1 : ℤ) ≤ 0 ∨ (5 : ℤ) ≤ 0 ∨
        (∃ p, (none : Option ℚ) = some p ∧ 21 / 10 * 3 < |p|) ∨
        (255 : ℚ) < 0 ∨ 2 ^ 16 ≤ (255 : ℚ)) :=
  claim_C7_create_test_image_validation 3 (-1) 5 0 0 10 8 none 0 255

/-- Concrete 6×7 stand-in for the scipy-rotated array in the C8 witness. -/
def imgR : Image := ⟨6, 7, fun r c => ((r - c : ℤ) : ℚ)⟩

/-- Witness for C8 at a concrete image, rotation angle, and rotated array. -/
theorem claim_C8_witness :
    (rotate_image imgW 2 2 (some 1) 0 1 imgR).v = imgW.v ∧
    (rotate_image imgW 2 2 (some 1) 0 1 imgR).h = imgW.h ∧
    ((some (1 : ℚ)) = none →
      rotate_image imgW 2 2 (some 1) 0 1 imgR = imgW) ∧
    (∀ p : ℚ, (some (1 : ℚ)) = some p →
      ∀ r c : ℤ,
        ¬((rotate_crop_params imgW imgR 2 2 0 1).sv1 ≤ r ∧
          r < (rotate_crop_params imgW imgR 2 2 0 1).sv1 +
              (rotate_crop_params imgW imgR 2 2 0 1).vlen ∧
          (rotate_crop_params imgW imgR 2 2 0 1).sh1 ≤ c ∧
          c < (rotate_crop_params imgW imgR 2 2 0 1).sh1 +
              (rotate_crop_params imgW imgR 2 2 0 1).hlen) →
        (rotate_image imgW 2 2 (some 1) 0 1 imgR).pix r c = 0) :=
  claim_C8_rotate_image_shape_and_fill imgW 2 2 (some 1) 0 1 imgR

end LaserBeamSize
